import Mathlib

/-!
Shallow embedding of
`src/data-structures-and-algorithms/data-structures/my_red_black_tree.py`.

Python objects are modelled by an arena: a tree state holds a list of node
records, and every object reference (`self.NIL`, `self.root`, `parent`,
`left`, `right`) is an index into that list.  Index `0` is the sentinel
`NIL` node allocated by `RBTree.__init__`, and Python identity comparison
(`==` / `!=` on nodes, which `RBNode` does not override) is index equality.

Two Python behaviours matter for fidelity:

* `_rotate_left` and `_rotate_right` read `self.nil`, an attribute that is
  never defined anywhere in the class (`__init__` only defines `self.NIL`,
  and Python attribute names are case sensitive), so in Python the
  comparison `pivot == self.nil` raises `AttributeError` before any field
  of any node is written;
* an exception leaves all field writes already performed by the call in
  place, so every mutating operation here returns the state as of the
  moment of the raise together with an optional error value.

Every node of the source carries `value`, `color`, `parent`, `left`,
`right`.  `parent` is kept as `Option Nat` because the source stores `None`
there transiently (`RBNode.__init__` default, and `insert` passes
`parent=None`) and `_rotate_left` / `_rotate_right` test `parent is None`.
`left` and `right` are plain indices: every `RBNode` the source ever builds
has them set to the sentinel at once (`insert` passes `left=self.NIL,
right=self.NIL`, and `__init__` makes the sentinel self-referential before
any use).
-/

inductive Color where
  | RED
  | BLACK
deriving DecidableEq, Repr

/-- Python exceptions the translated code can raise, plus a
`nonTermination` marker that is produced only when a loop runs out of
fuel.  The fuel bounds below are modelling artifacts chosen large enough
that a loop which terminates in Python never exhausts them. -/
inductive PyErr where
  | attributeError
  | typeError
  | nonTermination
deriving DecidableEq, Repr

/-- `RBNode` of the source, with object references replaced by arena
indices.  Values are specialised to `Int` (the repository only ever inserts
integers); the sentinel stores `value=None`, hence the `Option`. -/
structure RBNode where
  value : Option Int
  color : Color
  parent : Option Nat
  left : Nat
  right : Nat
deriving DecidableEq, Repr

/-- `RBTree` state: the arena of allocated nodes plus the `root` reference.
The sentinel `self.NIL` is always the node at index `0`. -/
structure RBTree where
  nodes : List RBNode
  root : Nat
deriving DecidableEq, Repr

/-- Default record returned when reading an index outside the arena; no
reachable execution performs such a read. -/
def defaultNode : RBNode :=
  { value := none, color := Color.BLACK, parent := none, left := 0, right := 0 }

/-- Dereference a node index. -/
def RBTree.node (t : RBTree) (i : Nat) : RBNode :=
  t.nodes.getD i defaultNode

/-- Overwrite the node at index `i`. -/
def RBTree.setNode (t : RBTree) (i : Nat) (x : RBNode) : RBTree :=
  { t with nodes := t.nodes.set i x }

/-- Assignment `<node i>.color = c`. -/
def RBTree.setColor (t : RBTree) (i : Nat) (c : Color) : RBTree :=
  t.setNode i { t.node i with color := c }

/-- `RBTree.__init__` (`new_tree` of the specification): allocate the
sentinel `RBNode(value=None, color=Color.BLACK)`, make its `parent`,
`left` and `right` self-referential, and let `root` be the sentinel. -/
def newTree : RBTree :=
  { nodes := [{ value := none, color := Color.BLACK,
                parent := some 0, left := 0, right := 0 }],
    root := 0 }

/-- `RBTree._rotate_left`.  The body first evaluates
`pivot = pivot_parent.right` and then the test `pivot == self.nil`; the
attribute `nil` does not exist on the class (only `NIL` does), so the test
raises `AttributeError` in Python before any link or colour is written.
The state is therefore returned unchanged, paired with the error. -/
def RBTree.rotate_left (t : RBTree) (pivot_parent : Nat) :
    RBTree × Option PyErr :=
  let _pivot := (t.node pivot_parent).right
  (t, some PyErr.attributeError)

/-- `RBTree._rotate_right`: exact mirror of `_rotate_left`, and it reads
the same undefined attribute `self.nil`, so it raises `AttributeError`
before writing anything. -/
def RBTree.rotate_right (t : RBTree) (pivot_parent : Nat) :
    RBTree × Option PyErr :=
  let _pivot := (t.node pivot_parent).left
  (t, some PyErr.attributeError)

/-- Possible outcomes of the descent loop of `insert`. -/
inductive SearchOutcome where
  | dup
  | attach (parent : Nat)
  | typeErr
  | noFuel
deriving DecidableEq, Repr

/-- Lines 63 to 75 of the source, the descent loop of `insert`:
`while current != self.NIL`, with `parent` lagging one level behind
`current`.  Reaching the sentinel yields the attachment parent; finding an
equal value yields `dup` (the early `return`).  Comparing the `int` being
inserted against a `None` value would raise `TypeError` in Python; that
never happens on a well-formed tree.  The last argument is loop fuel, a
modelling artifact. -/
def RBTree.insert_search (t : RBTree) (value : Int) :
    Nat → Nat → Nat → SearchOutcome
  | _, _, 0 => SearchOutcome.noFuel
  | parent, current, fuel+1 =>
    if current = 0 then SearchOutcome.attach parent
    else
      match (t.node current).value with
      | none => SearchOutcome.typeErr
      | some v =>
        if value < v then
          t.insert_search value current (t.node current).left fuel
        else if v < value then
          t.insert_search value current (t.node current).right fuel
        else
          SearchOutcome.dup

/-- `RBTree._insert_fixup`.  The loop `while node.parent.color ==
Color.RED` is unrolled on fuel; each recursive call re-evaluates the guard
exactly as the Python loop does.  Reading `.color` or `.left` through a
`None` parent raises `AttributeError`.  Recolouring writes only the
`color` field, so the re-reads of `node.parent` and `node.parent.parent`
performed by the source after a recolour return the indices already in
hand; where the source re-reads a chain after a `setColor`, the read is
performed on the updated state.  Both rotation helpers raise
`AttributeError` on entry, so the arms that continue after a completed
rotation are unreachable; they are kept to mirror the source control
flow. -/
def RBTree.insert_fixup : RBTree → Nat → Nat → RBTree × Option PyErr
  | t, _, 0 => (t, some PyErr.nonTermination)
  | t, node, fuel+1 =>
    match (t.node node).parent with
    | none => (t, some PyErr.attributeError)
    | some p =>
      if (t.node p).color = Color.RED then
        match (t.node p).parent with
        | none => (t, some PyErr.attributeError)
        | some g =>
          if p = (t.node g).left then
            -- `node.parent == node.parent.parent.left`
            let uncle := (t.node g).right
            if (t.node uncle).color = Color.RED then
              -- Case 1: recolour parent, uncle, grandparent; node = grandparent
              let t1 := ((t.setColor p Color.BLACK).setColor uncle
                          Color.BLACK).setColor g Color.RED
              RBTree.insert_fixup t1 g fuel
            else
              if node = (t.node p).right then
                -- Case 2: `node = node.parent; self._rotate_left(node)`
                match t.rotate_left p with
                | (t1, some e) => (t1, some e)
                | (t1, none) =>
                  -- Case 3 after case 2, with the working node now `p`
                  match (t1.node p).parent with
                  | none => (t1, some PyErr.attributeError)
                  | some p2 =>
                    let t2 := t1.setColor p2 Color.BLACK
                    match (t2.node p2).parent with
                    | none => (t2, some PyErr.attributeError)
                    | some g2 =>
                      let t3 := t2.setColor g2 Color.RED
                      match t3.rotate_right g2 with
                      | (t4, some e) => (t4, some e)
                      | (t4, none) => RBTree.insert_fixup t4 p fuel
              else
                -- Case 3 directly
                let t2 := t.setColor p Color.BLACK
                match (t2.node p).parent with
                | none => (t2, some PyErr.attributeError)
                | some g2 =>
                  let t3 := t2.setColor g2 Color.RED
                  match t3.rotate_right g2 with
                  | (t4, some e) => (t4, some e)
                  | (t4, none) => RBTree.insert_fixup t4 node fuel
          else
            -- Mirror branch: node's parent is a right child
            let uncle := (t.node g).left
            if (t.node uncle).color = Color.RED then
              let t1 := ((t.setColor p Color.BLACK).setColor uncle
                          Color.BLACK).setColor g Color.RED
              RBTree.insert_fixup t1 g fuel
            else
              if node = (t.node p).left then
                -- Case 2 (mirror): `node = node.parent; self._rotate_right(node)`
                match t.rotate_right p with
                | (t1, some e) => (t1, some e)
                | (t1, none) =>
                  match (t1.node p).parent with
                  | none => (t1, some PyErr.attributeError)
                  | some p2 =>
                    let t2 := t1.setColor p2 Color.BLACK
                    match (t2.node p2).parent with
                    | none => (t2, some PyErr.attributeError)
                    | some g2 =>
                      let t3 := t2.setColor g2 Color.RED
                      match t3.rotate_left g2 with
                      | (t4, some e) => (t4, some e)
                      | (t4, none) => RBTree.insert_fixup t4 p fuel
              else
                -- Case 3 (mirror) directly
                let t2 := t.setColor p Color.BLACK
                match (t2.node p).parent with
                | none => (t2, some PyErr.attributeError)
                | some g2 =>
                  let t3 := t2.setColor g2 Color.RED
                  match t3.rotate_left g2 with
                  | (t4, some e) => (t4, some e)
                  | (t4, none) => RBTree.insert_fixup t4 node fuel
      else
        -- Loop exit: `self.root.color = Color.BLACK`
        (t.setColor t.root Color.BLACK, none)

/-- `RBTree.insert`.  The source allocates `new_node` before the descent;
an unattached allocation is not observable through the tree, so the arena
append is performed at the attachment point, only on the non-duplicate
path.  On the duplicate path the state is returned untouched, exactly as
the early `return` leaves the Python tree untouched. -/
def RBTree.insert (t : RBTree) (value : Int) : RBTree × Option PyErr :=
  match t.insert_search value 0 t.root (t.nodes.length + 1) with
  | SearchOutcome.noFuel => (t, some PyErr.nonTermination)
  | SearchOutcome.typeErr => (t, some PyErr.typeError)
  | SearchOutcome.dup => (t, none)
  | SearchOutcome.attach parent =>
    let n := t.nodes.length
    let newNode : RBNode :=
      { value := some value, color := Color.RED,
        parent := some parent, left := 0, right := 0 }
    if parent = 0 then
      -- `if parent == self.NIL: self.root = new_node`
      RBTree.insert_fixup { nodes := t.nodes ++ [newNode], root := n } n
        (t.nodes.length + 2)
    else
      match (t.node parent).value with
      | none => (t, some PyErr.typeError)
      | some pv =>
        let t1 : RBTree := { nodes := t.nodes ++ [newNode], root := t.root }
        let t2 :=
          if value < pv then
            t1.setNode parent { t1.node parent with left := n }
          else
            t1.setNode parent { t1.node parent with right := n }
        RBTree.insert_fixup t2 n (t2.nodes.length + 1)

/-- Driver loop of the repository (`for v in values: tree.insert(v)`): an
uncaught exception aborts the remaining insertions, so the fold stops
threading new values once an error has occurred. -/
def insertAll (values : List Int) : RBTree × Option PyErr :=
  values.foldl
    (fun acc v =>
      match acc with
      | (t, none) => t.insert v
      | (t, some e) => (t, some e))
    (newTree, none)

/-! ### Concrete states used by several claims -/

/-- Tree after the repository's own demonstration sequence
`[20, 10, 25, 5, 15, 30]` (scenario 1 of the specification). -/
def scenario1Tree : RBTree := (insertAll [20, 10, 25, 5, 15, 30]).1

/-- Tree after inserting `10` then `20` into a fresh tree (both succeed,
no rotation needed yet). -/
def twoTree : RBTree := (insertAll [10, 20]).1

/-- State reached by calling `insert` four times with `30, 20, 10, 40`,
continuing past raised exceptions exactly as a caller that catches them
would: the Python tree object survives an exception with all writes made
before the raise still in place. -/
def fourInsertState : RBTree :=
  ((((newTree.insert 30).1.insert 20).1.insert 10).1.insert 40).1

/-! ### Claim theorems on concrete runs -/

/-- C1: the claim that after every call to `insert` the red-black
invariants 2 to 6 hold simultaneously is false of the code: inserting
`[10, 20, 30]` makes the third call raise `AttributeError` (the rotation
helpers read the undefined attribute `self.nil`), and it leaves the root
node (value `10`) coloured RED, violating invariant 2. -/
theorem insert_sequence_breaks_invariants :
    (insertAll [10, 20, 30]).2 = some PyErr.attributeError ∧
    ((insertAll [10, 20, 30]).1.node (insertAll [10, 20, 30]).1.root).color
      = Color.RED := by
  constructor <;> rfl

/-- C2: the claim that `insert` either fully completes or is a pure no-op
is false of the code: inserting `30` into the tree holding `{10, 20}`
raises `AttributeError` after attaching the new node and flipping two
colours, so the state after the call differs from the state before it and
is not a completed insertion either (its root is RED). -/
theorem insert_observable_partial_mutation :
    (twoTree.insert 30).2 = some PyErr.attributeError ∧
    (twoTree.insert 30).1 ≠ twoTree ∧
    ((twoTree.insert 30).1.node (twoTree.insert 30).1.root).color
      = Color.RED := by
  refine ⟨rfl, ?_, rfl⟩
  decide

/-- C3: the claim that inserting ascending `[10, 20, 30, 40, 50, 60, 70]`
produces a tree of height at most 3 is false of the code: the third
insertion triggers the first rotation, which raises `AttributeError`, so
the driver loop aborts with only three values ever attached and the
promised balanced tree is never produced. -/
theorem ascending_insert_crashes :
    (insertAll [10, 20, 30, 40, 50, 60, 70]).2 = some PyErr.attributeError ∧
    (insertAll [10, 20, 30, 40, 50, 60, 70]).1 = (insertAll [10, 20, 30]).1 := by
  constructor <;> rfl

/-- C5: the claim that `rotate_left` repoints every parent pointer it
touches is false of the code: called on the root of the scenario-1 tree,
whose right child is a real node, it raises `AttributeError` (undefined
attribute `self.nil`) and repoints nothing; the mirror `rotate_right`
fails identically. -/
theorem rotate_rewires_nothing :
    (scenario1Tree.node scenario1Tree.root).right ≠ 0 ∧
    scenario1Tree.rotate_left scenario1Tree.root
      = (scenario1Tree, some PyErr.attributeError) ∧
    (scenario1Tree.node scenario1Tree.root).left ≠ 0 ∧
    scenario1Tree.rotate_right scenario1Tree.root
      = (scenario1Tree, some PyErr.attributeError) := by
  refine ⟨?_, rfl, ?_, rfl⟩ <;> decide

/-- C6: inserting `[20, 10, 25, 5, 15, 30]` in order yields exactly the
shape and colours stated: root 20 BLACK, left 10 BLACK, right 25 BLACK,
5 and 15 RED under 10, 30 RED as right child of 25, and the left child of
25 is the sentinel.  This run needs no rotation (only the recolouring
case fires), so the broken rotation helpers are never reached. -/
theorem scenario1_exact_shape :
    (insertAll [20, 10, 25, 5, 15, 30]).2 = none ∧
    (scenario1Tree.node scenario1Tree.root).value = some 20 ∧
    (scenario1Tree.node scenario1Tree.root).color = Color.BLACK ∧
    (scenario1Tree.node (scenario1Tree.node scenario1Tree.root).left).value
      = some 10 ∧
    (scenario1Tree.node (scenario1Tree.node scenario1Tree.root).left).color
      = Color.BLACK ∧
    (scenario1Tree.node (scenario1Tree.node scenario1Tree.root).right).value
      = some 25 ∧
    (scenario1Tree.node (scenario1Tree.node scenario1Tree.root).right).color
      = Color.BLACK ∧
    (scenario1Tree.node (scenario1Tree.node
      (scenario1Tree.node scenario1Tree.root).left).left).value = some 5 ∧
    (scenario1Tree.node (scenario1Tree.node
      (scenario1Tree.node scenario1Tree.root).left).left).color = Color.RED ∧
    (scenario1Tree.node (scenario1Tree.node
      (scenario1Tree.node scenario1Tree.root).left).right).value = some 15 ∧
    (scenario1Tree.node (scenario1Tree.node
      (scenario1Tree.node scenario1Tree.root).left).right).color = Color.RED ∧
    (scenario1Tree.node (scenario1Tree.node
      (scenario1Tree.node scenario1Tree.root).right).right).value = some 30 ∧
    (scenario1Tree.node (scenario1Tree.node
      (scenario1Tree.node scenario1Tree.root).right).right).color
      = Color.RED ∧
    (scenario1Tree.node (scenario1Tree.node scenario1Tree.root).right).left
      = 0 := by
  decide

/-- C7: the claim that the sentinel is never written is false of the code:
calling `insert` with `30, 20, 10, 40` (continuing past the exceptions the
calls raise) makes the mirror recolouring step of the fixup execute
`node.parent.parent.color = Color.RED` with the grandparent being the
sentinel, so the sentinel's colour field, BLACK at construction, ends up
RED. -/
theorem sentinel_color_overwritten :
    (newTree.node 0).color = Color.BLACK ∧
    (fourInsertState.node 0).color = Color.RED := by
  constructor <;> rfl

/-- C9: calling `rotate_left` on a node whose right child is the sentinel
does fail fast instead of updating anything or returning normally: the
call raises (`AttributeError`, from the undefined `self.nil` read that
precedes every other statement of the helper) and leaves the state
untouched; mirror-symmetrically for `rotate_right` on a sentinel left
child. -/
theorem rotate_on_sentinel_child_fails_fast (t : RBTree) (x : Nat) :
    ((t.node x).right = 0 →
      t.rotate_left x = (t, some PyErr.attributeError)) ∧
    ((t.node x).left = 0 →
      t.rotate_right x = (t, some PyErr.attributeError)) := by
  exact ⟨fun _ => rfl, fun _ => rfl⟩

/-- Witness for C9 at a concrete input: the sentinel children of the
fresh tree's sentinel root. -/
theorem rotate_on_sentinel_child_fails_fast_witness :
    newTree.rotate_left 0 = (newTree, some PyErr.attributeError) ∧
    newTree.rotate_right 0 = (newTree, some PyErr.attributeError) :=
  ⟨(rotate_on_sentinel_child_fails_fast newTree 0).1 rfl,
   (rotate_on_sentinel_child_fails_fast newTree 0).2 rfl⟩

/-! ### Extracted shapes

To reason about all well-formed states at once, the arena is unfolded into
an inductive binary tree recording, for every real node, its index, value
and colour.  Extraction is fuel-bounded; it succeeds exactly when the
child links starting from the given index reach the sentinel everywhere
without cycling. -/

inductive ITree where
  | leaf
  | node (idx : Nat) (val : Int) (col : Color) (l r : ITree)
deriving DecidableEq, Repr

/-- Unfold the arena below index `i` into an `ITree`. -/
def RBTree.extract (t : RBTree) : Nat → Nat → Option ITree
  | _, 0 => none
  | i, fuel+1 =>
    if i = 0 then some ITree.leaf
    else
      match (t.node i).value with
      | none => none
      | some v =>
        match t.extract (t.node i).left fuel,
              t.extract (t.node i).right fuel with
        | some l, some r => some (ITree.node i v (t.node i).color l r)
        | _, _ => none

def ITree.height : ITree → Nat
  | .leaf => 0
  | .node _ _ _ l r => max l.height r.height + 1

/-- In-order list of values, the contents of the tree. -/
def ITree.vals : ITree → List Int
  | .leaf => []
  | .node _ v _ l r => l.vals ++ v :: r.vals

/-- Does index `j` occur in the extracted shape? -/
def ITree.hasIdx : ITree → Nat → Bool
  | .leaf, _ => false
  | .node i _ _ l r, j => i = j || l.hasIdx j || r.hasIdx j

def ITree.allLT : ITree → Int → Bool
  | .leaf, _ => true
  | .node _ v _ l r, b => decide (v < b) && l.allLT b && r.allLT b

def ITree.allGT : ITree → Int → Bool
  | .leaf, _ => true
  | .node _ v _ l r, b => decide (b < v) && l.allGT b && r.allGT b

/-- Invariant 6 of the specification: strict BST ordering, hence no
duplicate values. -/
def ITree.bst : ITree → Bool
  | .leaf => true
  | .node _ v _ l r => l.allLT v && r.allGT v && l.bst && r.bst

def ITree.rootColor : ITree → Color
  | .leaf => Color.BLACK
  | .node _ _ c _ _ => c

/-- Invariant 4: a RED node never has a RED child. -/
def ITree.noRedRed : ITree → Bool
  | .leaf => true
  | .node _ _ c l r =>
    (decide (c = Color.BLACK) ||
      (decide (l.rootColor = Color.BLACK) &&
       decide (r.rootColor = Color.BLACK))) &&
    l.noRedRed && r.noRedRed

/-- Number of BLACK nodes on every path to a sentinel, counting the
sentinel itself. -/
def ITree.blackHeight : ITree → Nat
  | .leaf => 1
  | .node _ _ c l _ => l.blackHeight + (if c = Color.BLACK then 1 else 0)

/-- Invariant 5: black-height consistency. -/
def ITree.balancedBlack : ITree → Bool
  | .leaf => true
  | .node _ _ _ l r =>
    l.balancedBlack && r.balancedBlack && decide (l.blackHeight = r.blackHeight)

/-- Length of the parent chain from `i` up to the sentinel, fuel-bounded. -/
def RBTree.upLen (t : RBTree) : Nat → Nat → Option Nat
  | _, 0 => none
  | i, fuel+1 =>
    if i = 0 then some 0
    else
      match (t.node i).parent with
      | none => none
      | some p => (t.upLen p fuel).map (· + 1)

/-- Relational form of the parent chain: `UpChain t i k` says that
following `parent` from `i` reaches the sentinel in exactly `k` steps. -/
inductive UpChain (t : RBTree) : Nat → Nat → Prop where
  | nil : UpChain t 0 0
  | step (i p k : Nat) : i ≠ 0 → (t.node i).parent = some p →
      UpChain t p k → UpChain t i (k+1)

/-- Structural well-formedness: a nonempty arena whose sentinel is
self-referential, whose root unfolds into the shape `s`, and all of whose
parent chains reach the sentinel. -/
def Wf (t : RBTree) (s : ITree) : Prop :=
  0 < t.nodes.length ∧
  (t.node 0).parent = some 0 ∧ (t.node 0).left = 0 ∧ (t.node 0).right = 0 ∧
  t.extract t.root t.nodes.length = some s ∧
  ∀ i, i < t.nodes.length → (t.upLen i t.nodes.length).isSome = true

/-- Invariants 2 to 6 of the specification over the extracted shape:
BLACK root, BLACK sentinel, no RED node with a RED child, black-height
consistency, BST ordering. -/
def RBInvariants (t : RBTree) (s : ITree) : Prop :=
  s.rootColor = Color.BLACK ∧
  (t.node 0).color = Color.BLACK ∧
  s.noRedRed = true ∧
  s.balancedBlack = true ∧
  s.bst = true

/-! ### Arena access lemmas -/

theorem node_out_of_range (t : RBTree) {i : Nat} (h : t.nodes.length ≤ i) :
    t.node i = defaultNode :=
  List.getD_eq_default _ _ h

theorem node_setNode (t : RBTree) (j : Nat) (x : RBNode) (i : Nat) :
    (t.setNode j x).node i =
      if j = i ∧ j < t.nodes.length then x else t.node i := by
  by_cases hj : j = i
  · subst hj
    by_cases hl : j < t.nodes.length
    · simp [RBTree.node, RBTree.setNode, List.getD_eq_getElem?_getD,
        List.getElem?_set, hl]
    · have hle : t.nodes.length ≤ j := Nat.le_of_not_lt hl
      simp [RBTree.setNode, List.set_eq_of_length_le hle, hl]
  · simp [RBTree.node, RBTree.setNode, List.getD_eq_getElem?_getD,
      List.getElem?_set, hj]

theorem node_setColor (t : RBTree) (j : Nat) (c : Color) (i : Nat) :
    (t.setColor j c).node i =
      if j = i ∧ j < t.nodes.length then { t.node i with color := c }
      else t.node i := by
  rw [RBTree.setColor, node_setNode]
  by_cases hj : j = i
  · subst hj; rfl
  · simp [hj]

theorem length_setNode (t : RBTree) (j : Nat) (x : RBNode) :
    (t.setNode j x).nodes.length = t.nodes.length :=
  List.length_set ..

theorem root_setNode (t : RBTree) (j : Nat) (x : RBNode) :
    (t.setNode j x).root = t.root := rfl

theorem length_setColor (t : RBTree) (j : Nat) (c : Color) :
    (t.setColor j c).nodes.length = t.nodes.length :=
  List.length_set ..

theorem root_setColor (t : RBTree) (j : Nat) (c : Color) :
    (t.setColor j c).root = t.root := rfl

theorem parent_setColor (t : RBTree) (j : Nat) (c : Color) (i : Nat) :
    ((t.setColor j c).node i).parent = (t.node i).parent := by
  rw [node_setColor]; split <;> rfl

theorem left_setColor (t : RBTree) (j : Nat) (c : Color) (i : Nat) :
    ((t.setColor j c).node i).left = (t.node i).left := by
  rw [node_setColor]; split <;> rfl

theorem right_setColor (t : RBTree) (j : Nat) (c : Color) (i : Nat) :
    ((t.setColor j c).node i).right = (t.node i).right := by
  rw [node_setColor]; split <;> rfl

theorem value_setColor (t : RBTree) (j : Nat) (c : Color) (i : Nat) :
    ((t.setColor j c).node i).value = (t.node i).value := by
  rw [node_setColor]; split <;> rfl

theorem node_append_lt (t : RBTree) (nn : RBNode) (r : Nat) {i : Nat}
    (h : i < t.nodes.length) :
    (RBTree.mk (t.nodes ++ [nn]) r).node i = t.node i := by
  simp [RBTree.node, List.getD_eq_getElem?_getD, List.getElem?_append, h]

theorem node_append_self (t : RBTree) (nn : RBNode) (r : Nat) :
    (RBTree.mk (t.nodes ++ [nn]) r).node t.nodes.length = nn := by
  simp [RBTree.node, List.getD_eq_getElem?_getD,
    List.getElem?_append_right (Nat.le_refl _)]

/-! ### Extraction lemmas -/

theorem extract_height (t : RBTree) :
    ∀ (f i : Nat) (s : ITree), t.extract i f = some s → s.height < f := by
  intro f
  induction f with
  | zero => intro i s h; simp [RBTree.extract] at h
  | succ f ih =>
    intro i s h
    rw [RBTree.extract] at h
    split at h
    · cases h; simp [ITree.height]
    · split at h
      · exact absurd h (by simp)
      · split at h
        · rename_i l r hl hr
          cases h
          have h1 := ih _ _ hl
          have h2 := ih _ _ hr
          simp only [ITree.height]
          omega
        · exact absurd h (by simp)

theorem extract_leaf_inv (t : RBTree) {f i : Nat}
    (h : t.extract i f = some ITree.leaf) : i = 0 := by
  match f with
  | 0 => simp [RBTree.extract] at h
  | f+1 =>
    rw [RBTree.extract] at h
    split at h
    · assumption
    · split at h
      · exact absurd h (by simp)
      · split at h
        · cases h
        · exact absurd h (by simp)

theorem extract_node_inv (t : RBTree) {f cur i : Nat} {w : Int} {c : Color}
    {l r : ITree} (h : t.extract cur f = some (ITree.node i w c l r)) :
    cur = i ∧ i ≠ 0 ∧ (t.node i).value = some w ∧ (t.node i).color = c ∧
    ∃ f1, f = f1 + 1 ∧ t.extract (t.node i).left f1 = some l ∧
      t.extract (t.node i).right f1 = some r := by
  match f with
  | 0 => simp [RBTree.extract] at h
  | f+1 =>
    rw [RBTree.extract] at h
    split at h
    · cases h
    · rename_i hcur
      split at h
      · exact absurd h (by simp)
      · rename_i v hv
        split at h
        · rename_i lt rt hl hr
          injection h with h
          cases h
          exact ⟨rfl, hcur, hv, rfl, f, rfl, hl, hr⟩
        · exact absurd h (by simp)

theorem extract_hasIdx (t : RBTree) :
    ∀ (s : ITree) (f cur q : Nat), t.extract cur f = some s →
      s.hasIdx q = true →
      q ≠ 0 ∧ q < t.nodes.length ∧ ∃ w, (t.node q).value = some w := by
  intro s
  induction s with
  | leaf => intro f cur q _ hq; simp [ITree.hasIdx] at hq
  | node i w c l r ihl ihr =>
    intro f cur q hx hq
    obtain ⟨rfl, hi0, hv, _, f1, rfl, hl, hr⟩ := extract_node_inv t hx
    simp only [ITree.hasIdx, Bool.or_eq_true, decide_eq_true_eq] at hq
    rcases hq with (hq | hq) | hq
    · subst hq
      refine ⟨hi0, ?_, w, hv⟩
      by_contra hge
      rw [node_out_of_range t (Nat.le_of_not_lt hge)] at hv
      simp [defaultNode] at hv
    · exact ihl f1 _ q hl hq
    · exact ihr f1 _ q hr hq

/-! ### Descent-loop lemmas -/

theorem allLT_spec : ∀ (s : ITree) (b : Int), s.allLT b = true →
    ∀ x ∈ s.vals, x < b := by
  intro s
  induction s with
  | leaf => intro b _ x hx; simp [ITree.vals] at hx
  | node i v c l r ihl ihr =>
    intro b hb x hx
    simp only [ITree.allLT, Bool.and_eq_true, decide_eq_true_eq] at hb
    simp only [ITree.vals, List.mem_append, List.mem_cons] at hx
    rcases hx with hx | hx | hx
    · exact ihl b hb.1.2 x hx
    · exact hx ▸ hb.1.1
    · exact ihr b hb.2 x hx

theorem allGT_spec : ∀ (s : ITree) (b : Int), s.allGT b = true →
    ∀ x ∈ s.vals, b < x := by
  intro s
  induction s with
  | leaf => intro b _ x hx; simp [ITree.vals] at hx
  | node i v c l r ihl ihr =>
    intro b hb x hx
    simp only [ITree.allGT, Bool.and_eq_true, decide_eq_true_eq] at hb
    simp only [ITree.vals, List.mem_append, List.mem_cons] at hx
    rcases hx with hx | hx | hx
    · exact ihl b hb.1.2 x hx
    · exact hx ▸ hb.1.1
    · exact ihr b hb.2 x hx

/-- On a shape that extracts successfully, the descent loop finds every
value the tree holds, provided the BST ordering holds and the fuel exceeds
the height. -/
theorem search_finds_dup (t : RBTree) (v : Int) :
    ∀ (s : ITree) (f fuel parent cur : Nat),
      t.extract cur f = some s → s.height < fuel → s.bst = true →
      v ∈ s.vals →
      t.insert_search v parent cur fuel = SearchOutcome.dup := by
  intro s
  induction s with
  | leaf => intro f fuel parent cur _ _ _ hv; simp [ITree.vals] at hv
  | node i w c l r ihl ihr =>
    intro f fuel parent cur hx hh hbst hv
    obtain ⟨rfl, hi0, hval, _, f1, rfl, hl, hr⟩ := extract_node_inv t hx
    simp only [ITree.height] at hh
    obtain ⟨fuel, rfl⟩ : ∃ fu, fuel = fu + 1 :=
      ⟨fuel - 1, by omega⟩
    simp only [ITree.bst, Bool.and_eq_true] at hbst
    simp only [ITree.vals, List.mem_append, List.mem_cons] at hv
    rw [RBTree.insert_search]
    simp only [hi0, if_false, hval]
    rcases lt_trichotomy v w with hlt | rfl | hgt
    · have hvl : v ∈ l.vals := by
        rcases hv with hv | hv | hv
        · exact hv
        · omega
        · exact absurd (allGT_spec r w hbst.1.1.2 v hv) (by omega)
      rw [if_pos hlt]
      exact ihl f1 fuel cur (t.node cur).left hl (by omega) hbst.1.2 hvl
    · rw [if_neg (lt_irrefl v), if_neg (lt_irrefl v)]
    · have hvr : v ∈ r.vals := by
        rcases hv with hv | hv | hv
        · exact absurd (allLT_spec l w hbst.1.1.1 v hv) (by omega)
        · omega
        · exact hv
      rw [if_neg (by omega), if_pos hgt]
      exact ihr f1 fuel cur (t.node cur).right hr (by omega) hbst.2 hvr

/-- Whatever state it runs on, when the descent loop returns an attachment
parent, that parent is either the caller-supplied initial one or a real
in-range node visited on the way down. -/
theorem search_attach_range (t : RBTree) (v : Int) :
    ∀ (fuel parent cur q : Nat),
      t.insert_search v parent cur fuel = SearchOutcome.attach q →
      q = parent ∨ (q ≠ 0 ∧ q < t.nodes.length) := by
  intro fuel
  induction fuel with
  | zero => intro parent cur q h; simp [RBTree.insert_search] at h
  | succ fuel ih =>
    intro parent cur q h
    rw [RBTree.insert_search] at h
    split at h
    · cases h; exact Or.inl rfl
    · rename_i hcur
      split at h
      · cases h
      · rename_i w hw
        have hcl : cur < t.nodes.length := by
          by_contra hge
          rw [node_out_of_range t (Nat.le_of_not_lt hge)] at hw
          simp [defaultNode] at hw
        split at h
        · rcases ih _ _ _ h with rfl | hq
          · exact Or.inr ⟨hcur, hcl⟩
          · exact Or.inr hq
        · split at h
          · rcases ih _ _ _ h with rfl | hq
            · exact Or.inr ⟨hcur, hcl⟩
            · exact Or.inr hq
          · cases h

/-- On a successfully extracted shape with enough fuel, the descent loop
never runs out of fuel and never hits a `None` value: it either reports a
duplicate or returns an attachment parent lying in the shape (or the
initial parent). -/
theorem search_classify (t : RBTree) (v : Int) :
    ∀ (s : ITree) (f fuel parent cur : Nat),
      t.extract cur f = some s → s.height < fuel →
      t.insert_search v parent cur fuel = SearchOutcome.dup ∨
      ∃ q, t.insert_search v parent cur fuel = SearchOutcome.attach q ∧
        (q = parent ∨ s.hasIdx q = true) := by
  intro s
  induction s with
  | leaf =>
    intro f fuel parent cur hx hh
    have h0 := extract_leaf_inv t hx
    obtain ⟨fuel, rfl⟩ : ∃ fu, fuel = fu + 1 := ⟨fuel - 1, by omega⟩
    subst h0
    rw [RBTree.insert_search]
    exact Or.inr ⟨parent, by simp, Or.inl rfl⟩
  | node i w c l r ihl ihr =>
    intro f fuel parent cur hx hh
    obtain ⟨rfl, hi0, hval, _, f1, rfl, hl, hr⟩ := extract_node_inv t hx
    simp only [ITree.height] at hh
    obtain ⟨fuel, rfl⟩ : ∃ fu, fuel = fu + 1 := ⟨fuel - 1, by omega⟩
    rw [RBTree.insert_search]
    simp only [hi0, if_false, hval]
    rcases lt_trichotomy v w with hlt | rfl | hgt
    · rw [if_pos hlt]
      rcases ihl f1 fuel cur (t.node cur).left hl (by omega) with
        hd | ⟨q, hq, hqo⟩
      · exact Or.inl hd
      · refine Or.inr ⟨q, hq, Or.inr ?_⟩
        simp only [ITree.hasIdx, Bool.or_eq_true, decide_eq_true_eq]
        rcases hqo with rfl | hqi
        · exact Or.inl (Or.inl rfl)
        · exact Or.inl (Or.inr hqi)
    · rw [if_neg (lt_irrefl v), if_neg (lt_irrefl v)]
      exact Or.inl rfl
    · rw [if_neg (by omega), if_pos hgt]
      rcases ihr f1 fuel cur (t.node cur).right hr (by omega) with
        hd | ⟨q, hq, hqo⟩
      · exact Or.inl hd
      · refine Or.inr ⟨q, hq, Or.inr ?_⟩
        simp only [ITree.hasIdx, Bool.or_eq_true, decide_eq_true_eq]
        rcases hqo with rfl | hqi
        · exact Or.inl (Or.inl rfl)
        · exact Or.inr hqi

/-- C4: inserting a value already present in the tree is a no-op.  On any
state whose root unfolds into a BST shape, if the value is among the
stored values the descent loop hits the equality branch and returns early,
so the state after the call is literally the state before it and no error
is signalled. -/
theorem insert_duplicate_noop (t : RBTree) (s : ITree) (v : Int)
    (hx : t.extract t.root t.nodes.length = some s)
    (hbst : s.bst = true) (hv : v ∈ s.vals) :
    t.insert v = (t, none) := by
  have hh : s.height < t.nodes.length := extract_height t _ _ _ hx
  have hd := search_finds_dup t v s t.nodes.length (t.nodes.length + 1)
    0 t.root hx (by omega) hbst hv
  rw [RBTree.insert, hd]

/-- Shape extracted from `scenario1Tree`. -/
def scenario1Shape : ITree :=
  ITree.node 1 20 Color.BLACK
    (ITree.node 2 10 Color.BLACK
      (ITree.node 4 5 Color.RED ITree.leaf ITree.leaf)
      (ITree.node 5 15 Color.RED ITree.leaf ITree.leaf))
    (ITree.node 3 25 Color.BLACK ITree.leaf
      (ITree.node 6 30 Color.RED ITree.leaf ITree.leaf))

/-- Witness for C4: re-inserting `20` into the scenario-1 tree returns the
identical state with no error. -/
theorem insert_duplicate_noop_witness :
    scenario1Tree.insert 20 = (scenario1Tree, none) :=
  insert_duplicate_noop scenario1Tree scenario1Shape 20 (by decide)
    (by decide) (by decide)

/-! ### What the fixup loop can change

Because both rotation helpers raise on entry, a run of `_insert_fixup`
only ever writes `color` fields: root, arena size, `value`, `parent`,
`left` and `right` of every node are left exactly as they were. -/

def SameTopo (t u : RBTree) : Prop :=
  u.root = t.root ∧ u.nodes.length = t.nodes.length ∧
  ∀ i, (u.node i).parent = (t.node i).parent ∧
    (u.node i).left = (t.node i).left ∧
    (u.node i).right = (t.node i).right ∧
    (u.node i).value = (t.node i).value

theorem sameTopo_refl (t : RBTree) : SameTopo t t :=
  ⟨rfl, rfl, fun _ => ⟨rfl, rfl, rfl, rfl⟩⟩

theorem sameTopo_trans {t u w : RBTree} (h1 : SameTopo t u)
    (h2 : SameTopo u w) : SameTopo t w := by
  obtain ⟨hr1, hl1, hf1⟩ := h1
  obtain ⟨hr2, hl2, hf2⟩ := h2
  refine ⟨hr2.trans hr1, hl2.trans hl1, fun i => ?_⟩
  obtain ⟨a1, b1, c1, d1⟩ := hf1 i
  obtain ⟨a2, b2, c2, d2⟩ := hf2 i
  exact ⟨a2.trans a1, b2.trans b1, c2.trans c1, d2.trans d1⟩

theorem sameTopo_setColor (t : RBTree) (j : Nat) (c : Color) :
    SameTopo t (t.setColor j c) :=
  ⟨root_setColor .., length_setColor .., fun _ =>
    ⟨parent_setColor .., left_setColor .., right_setColor ..,
     value_setColor ..⟩⟩

theorem insert_fixup_sameTopo :
    ∀ (fuel : Nat) (t : RBTree) (node : Nat),
      SameTopo t (RBTree.insert_fixup t node fuel).1 := by
  intro fuel
  induction fuel with
  | zero => intro t node; exact sameTopo_refl t
  | succ fuel ih =>
    intro t node
    rw [RBTree.insert_fixup]
    cases hpar : (t.node node).parent with
    | none => exact sameTopo_refl t
    | some p =>
      dsimp only
      by_cases hpc : (t.node p).color = Color.RED
      · rw [if_pos hpc]
        cases hgp : (t.node p).parent with
        | none => exact sameTopo_refl t
        | some g =>
          dsimp only
          by_cases hside : p = (t.node g).left
          · rw [if_pos hside]
            by_cases hu : (t.node (t.node g).right).color = Color.RED
            · rw [if_pos hu]
              exact sameTopo_trans
                (sameTopo_trans
                  (sameTopo_trans (sameTopo_setColor t p Color.BLACK)
                    (sameTopo_setColor _ (t.node g).right Color.BLACK))
                  (sameTopo_setColor _ g Color.RED))
                (ih _ g)
            · rw [if_neg hu]
              by_cases hn : node = (t.node p).right
              · rw [if_pos hn]
                exact sameTopo_refl t
              · rw [if_neg hn]
                cases hgp2 : ((t.setColor p Color.BLACK).node p).parent with
                | none => exact sameTopo_setColor t p Color.BLACK
                | some g2 =>
                  exact sameTopo_trans (sameTopo_setColor t p Color.BLACK)
                    (sameTopo_setColor _ g2 Color.RED)
          · rw [if_neg hside]
            by_cases hu : (t.node (t.node g).left).color = Color.RED
            · rw [if_pos hu]
              exact sameTopo_trans
                (sameTopo_trans
                  (sameTopo_trans (sameTopo_setColor t p Color.BLACK)
                    (sameTopo_setColor _ (t.node g).left Color.BLACK))
                  (sameTopo_setColor _ g Color.RED))
                (ih _ g)
            · rw [if_neg hu]
              by_cases hn : node = (t.node p).left
              · rw [if_pos hn]
                exact sameTopo_refl t
              · rw [if_neg hn]
                cases hgp2 : ((t.setColor p Color.BLACK).node p).parent with
                | none => exact sameTopo_setColor t p Color.BLACK
                | some g2 =>
                  exact sameTopo_trans (sameTopo_setColor t p Color.BLACK)
                    (sameTopo_setColor _ g2 Color.RED)
      · rw [if_neg hpc]
        exact sameTopo_setColor t t.root Color.BLACK

/-! ### Parent chains and termination of the fixup loop -/

theorem upLen_upChain (t : RBTree) :
    ∀ (f i k : Nat), t.upLen i f = some k → UpChain t i k ∧ k < f := by
  intro f
  induction f with
  | zero => intro i k h; simp [RBTree.upLen] at h
  | succ f ih =>
    intro i k h
    rw [RBTree.upLen] at h
    split at h
    · rename_i hi
      injection h with h
      subst hi
      exact ⟨h ▸ UpChain.nil, by omega⟩
    · rename_i hi
      split at h
      · exact absurd h (by simp)
      · rename_i p hp
        cases hk : t.upLen p f with
        | none => rw [hk] at h; simp at h
        | some k0 =>
          rw [hk] at h
          simp at h
          obtain ⟨hc, hkf⟩ := ih p k0 hk
          exact ⟨h ▸ UpChain.step i p k0 hi hp hc, by omega⟩

theorem upChain_transfer {t u : RBTree}
    (h : ∀ i p, i ≠ 0 → (t.node i).parent = some p →
      (u.node i).parent = some p) :
    ∀ {i k}, UpChain t i k → UpChain u i k := by
  intro i k hc
  induction hc with
  | nil => exact UpChain.nil
  | step i p k hi hp _ ih => exact UpChain.step i p k hi (h i p hi hp) ih

theorem upChain_setColor (t : RBTree) (j : Nat) (c : Color) {i k : Nat}
    (h : UpChain t i k) : UpChain (t.setColor j c) i k :=
  upChain_transfer (fun i p _ hp => by rw [parent_setColor]; exact hp) h

theorem upChain_inv {t : RBTree} {i k : Nat} (h : UpChain t i k)
    (hi : i ≠ 0) :
    ∃ p k0, (t.node i).parent = some p ∧ UpChain t p k0 ∧ k = k0 + 1 := by
  cases h with
  | nil => exact absurd rfl hi
  | step i p k0 _ hp hc => exact ⟨p, k0, hp, hc, rfl⟩

theorem color0_setColor_black (t : RBTree) (j : Nat)
    (h : (t.node 0).color = Color.BLACK) :
    ((t.setColor j Color.BLACK).node 0).color = Color.BLACK := by
  rw [node_setColor]
  split
  · rfl
  · exact h

theorem color_setColor_ne (t : RBTree) {j : Nat} (c : Color) {i : Nat}
    (hj : j ≠ i) : ((t.setColor j c).node i).color = (t.node i).color := by
  rw [node_setColor, if_neg]
  rintro ⟨h1, _⟩
  exact hj h1

/-- Termination of the fixup loop: on any state whose sentinel is BLACK
and self-referential, starting from a node whose parent chain reaches the
sentinel in `k` steps, the loop never exhausts its fuel once
`k < 2 * fuel`: every iteration either exits, raises, or moves the
working node two levels up the chain (the recolouring case). -/
theorem insert_fixup_no_nonterm :
    ∀ (fuel : Nat) (t : RBTree) (node k : Nat),
      k < 2 * fuel →
      UpChain t node k →
      (t.node 0).color = Color.BLACK →
      (t.node 0).parent = some 0 →
      (t.node 0).left = 0 →
      (t.node 0).right = 0 →
      (RBTree.insert_fixup t node fuel).2 ≠ some PyErr.nonTermination := by
  intro fuel
  induction fuel with
  | zero =>
    intro t node k hk
    exact absurd hk (by omega)
  | succ fuel ih =>
    intro t node k hk hchain hc0 hp0 hl0 hr0
    rw [RBTree.insert_fixup]
    cases hpar : (t.node node).parent with
    | none => simp
    | some p =>
      dsimp only
      by_cases hpc : (t.node p).color = Color.RED
      · rw [if_pos hpc]
        have hp_ne : p ≠ 0 := by
          intro h
          subst h
          rw [hc0] at hpc
          exact absurd hpc (by simp)
        have hnode_ne : node ≠ 0 := by
          intro h
          subst h
          rw [hp0] at hpar
          injection hpar with hpar
          exact hp_ne hpar.symm
        obtain ⟨p1, k1, hpp1, hch1, rfl⟩ := upChain_inv hchain hnode_ne
        rw [hpar] at hpp1
        injection hpp1 with hpp1
        subst hpp1
        obtain ⟨g1, k2, hpg1, hch2, rfl⟩ := upChain_inv hch1 hp_ne
        cases hgp : (t.node p).parent with
        | none => simp
        | some g =>
          rw [hgp] at hpg1
          injection hpg1 with hpg1
          subst hpg1
          dsimp only
          by_cases hside : p = (t.node g).left
          · rw [if_pos hside]
            by_cases hu : (t.node (t.node g).right).color = Color.RED
            · rw [if_pos hu]
              have hg_ne : g ≠ 0 := by
                intro h
                subst h
                rw [hr0, hc0] at hu
                exact absurd hu (by simp)
              have hu_chain :
                  UpChain (((t.setColor p Color.BLACK).setColor
                    (t.node g).right Color.BLACK).setColor g Color.RED)
                    g k2 :=
                upChain_setColor _ _ _ (upChain_setColor _ _ _
                  (upChain_setColor _ _ _ hch2))
              refine ih _ g k2 (by omega) hu_chain ?_ ?_ ?_ ?_
              · rw [color_setColor_ne _ _ hg_ne]
                exact color0_setColor_black _ _
                  (color0_setColor_black _ _ hc0)
              · rw [parent_setColor, parent_setColor, parent_setColor]
                exact hp0
              · rw [left_setColor, left_setColor, left_setColor]
                exact hl0
              · rw [right_setColor, right_setColor, right_setColor]
                exact hr0
            · rw [if_neg hu]
              by_cases hn : node = (t.node p).right
              · rw [if_pos hn]
                simp [RBTree.rotate_left]
              · rw [if_neg hn]
                cases hgp2 : ((t.setColor p Color.BLACK).node p).parent with
                | none => simp
                | some g2 => simp [RBTree.rotate_right]
          · rw [if_neg hside]
            by_cases hu : (t.node (t.node g).left).color = Color.RED
            · rw [if_pos hu]
              have hg_ne : g ≠ 0 := by
                intro h
                subst h
                rw [hl0, hc0] at hu
                exact absurd hu (by simp)
              have hu_chain :
                  UpChain (((t.setColor p Color.BLACK).setColor
                    (t.node g).left Color.BLACK).setColor g Color.RED)
                    g k2 :=
                upChain_setColor _ _ _ (upChain_setColor _ _ _
                  (upChain_setColor _ _ _ hch2))
              refine ih _ g k2 (by omega) hu_chain ?_ ?_ ?_ ?_
              · rw [color_setColor_ne _ _ hg_ne]
                exact color0_setColor_black _ _
                  (color0_setColor_black _ _ hc0)
              · rw [parent_setColor, parent_setColor, parent_setColor]
                exact hp0
              · rw [left_setColor, left_setColor, left_setColor]
                exact hl0
              · rw [right_setColor, right_setColor, right_setColor]
                exact hr0
            · rw [if_neg hu]
              by_cases hn : node = (t.node p).left
              · rw [if_pos hn]
                simp [RBTree.rotate_right]
              · rw [if_neg hn]
                cases hgp2 : ((t.setColor p Color.BLACK).node p).parent with
                | none => simp
                | some g2 => simp [RBTree.rotate_left]
      · rw [if_neg hpc]
        simp


/-- After attaching a new RED node under parent `q` (the non-root branch
of `insert`), the fixup loop cannot exhaust its fuel: the new node sits at
the bottom of a parent chain of length `kq + 1`. -/
theorem attach_fixup_no_nonterm (t : RBTree) (q : Nat) (x : RBNode)
    (v : Int) (kq fuel : Nat)
    (hc0 : (t.node 0).color = Color.BLACK)
    (hp0 : (t.node 0).parent = some 0)
    (hl0 : (t.node 0).left = 0)
    (hr0 : (t.node 0).right = 0)
    (hqne : q ≠ 0) (hqlt : q < t.nodes.length)
    (hxp : x.parent = (t.node q).parent)
    (hchq : UpChain t q kq)
    (hfuel : kq + 1 < 2 * fuel) :
    (RBTree.insert_fixup
      ((RBTree.mk (t.nodes ++ [RBNode.mk (some v) Color.RED (some q) 0 0])
        t.root).setNode q x)
      t.nodes.length fuel).2 ≠ some PyErr.nonTermination := by
  have hlen : 0 < t.nodes.length := Nat.pos_of_ne_zero (fun h => by omega)
  set t1 : RBTree := RBTree.mk
    (t.nodes ++ [RBNode.mk (some v) Color.RED (some q) 0 0]) t.root with ht1
  have htrans : ∀ i p, i ≠ 0 → (t.node i).parent = some p →
      ((t1.setNode q x).node i).parent = some p := by
    intro i p hi hp
    have hilt : i < t.nodes.length := by
      by_contra hge
      rw [node_out_of_range t (Nat.le_of_not_lt hge)] at hp
      simp [defaultNode] at hp
    rw [node_setNode]
    by_cases hiq : q = i
    · subst hiq
      rw [if_pos ⟨rfl, by simp [ht1]; omega⟩, hxp]
      exact hp
    · rw [if_neg (fun hc => hiq hc.1), ht1, node_append_lt t _ _ hilt]
      exact hp
  refine insert_fixup_no_nonterm _ _ _ (kq + 1) (by omega) ?_ ?_ ?_ ?_ ?_
  · refine UpChain.step t.nodes.length q kq (by omega) ?_
      (upChain_transfer htrans hchq)
    rw [node_setNode, if_neg (fun hc => by omega), ht1, node_append_self]
  · rw [node_setNode, if_neg (fun hc => hqne hc.1), ht1,
      node_append_lt t _ _ hlen]
    exact hc0
  · rw [node_setNode, if_neg (fun hc => hqne hc.1), ht1,
      node_append_lt t _ _ hlen]
    exact hp0
  · rw [node_setNode, if_neg (fun hc => hqne hc.1), ht1,
      node_append_lt t _ _ hlen]
    exact hl0
  · rw [node_setNode, if_neg (fun hc => hqne hc.1), ht1,
      node_append_lt t _ _ hlen]
    exact hr0

/-- C8: on any structurally well-formed state satisfying the red-black
invariants 2 to 6, `insert` never exhausts its loop fuel: the descent is
bounded by the extracted height and the fixup loop, whose guard reads the
working node's parent colour, always terminates, the sentinel above the
root being BLACK (each recolouring iteration moves the working node two
steps up a parent chain that ends at the sentinel; every other iteration
exits the loop or raises). -/
theorem insert_fixup_loop_terminates (t : RBTree) (s : ITree)
    (hwf : Wf t s) (hinv : RBInvariants t s) (v : Int) :
    (t.insert v).2 ≠ some PyErr.nonTermination := by
  obtain ⟨hlen, hp0, hl0, hr0, hx, hup⟩ := hwf
  obtain ⟨_, hc0, _, _, _⟩ := hinv
  have hh : s.height < t.nodes.length := extract_height t _ _ _ hx
  rw [RBTree.insert]
  rcases search_classify t v s t.nodes.length (t.nodes.length + 1) 0 t.root
      hx (by omega) with hd | ⟨q, hq, hqo⟩
  · rw [hd]
    simp
  · rw [hq]
    dsimp only
    by_cases hq0 : q = 0
    · subst hq0
      rw [if_pos rfl]
      refine insert_fixup_no_nonterm _ _ _ 1 (by omega) ?_ ?_ ?_ ?_ ?_
      · refine UpChain.step t.nodes.length 0 0 (by omega) ?_ UpChain.nil
        rw [node_append_self]
      · rw [node_append_lt t _ _ hlen]
        exact hc0
      · rw [node_append_lt t _ _ hlen]
        exact hp0
      · rw [node_append_lt t _ _ hlen]
        exact hl0
      · rw [node_append_lt t _ _ hlen]
        exact hr0
    · rw [if_neg hq0]
      have hidx : s.hasIdx q = true := by
        rcases hqo with rfl | hidx
        · exact absurd rfl hq0
        · exact hidx
      obtain ⟨hqne, hqlt, w, hw⟩ := extract_hasIdx t s _ _ q hx hidx
      rw [hw]
      dsimp only
      obtain ⟨kq, hkq⟩ := Option.isSome_iff_exists.mp (hup q hqlt)
      obtain ⟨hchq, hkqlt⟩ := upLen_upChain t _ _ _ hkq
      by_cases hvw : v < w
      · rw [if_pos hvw]
        refine attach_fixup_no_nonterm t q _ v kq _ hc0 hp0 hl0 hr0 hqne hqlt
          ?_ hchq ?_
        · show ((RBTree.mk (t.nodes ++ [RBNode.mk (some v) Color.RED
            (some q) 0 0]) t.root).node q).parent = (t.node q).parent
          rw [node_append_lt t _ _ hqlt]
        · rw [length_setNode]
          simp only [List.length_append, List.length_cons, List.length_nil]
          omega
      · rw [if_neg hvw]
        refine attach_fixup_no_nonterm t q _ v kq _ hc0 hp0 hl0 hr0 hqne hqlt
          ?_ hchq ?_
        · show ((RBTree.mk (t.nodes ++ [RBNode.mk (some v) Color.RED
            (some q) 0 0]) t.root).node q).parent = (t.node q).parent
          rw [node_append_lt t _ _ hqlt]
        · rw [length_setNode]
          simp only [List.length_append, List.length_cons, List.length_nil]
          omega

/-- Witness for C8: on the fresh empty tree (which satisfies the
invariants), inserting `5` does not exhaust the loop fuel. -/
theorem insert_fixup_loop_terminates_witness :
    (newTree.insert 5).2 ≠ some PyErr.nonTermination :=
  insert_fixup_loop_terminates newTree ITree.leaf
    ⟨by decide, by decide, by decide, by decide, by decide, by decide⟩
    ⟨by decide, by decide, by decide, by decide, by decide⟩ 5

/-! ### Link-field invariants of reachable states (claim C10) -/

/-- States reachable from `new_tree` by any sequence of `insert` calls,
keeping the state an insert leaves behind even when it raises (the Python
tree object survives the exception). -/
inductive Reachable : RBTree → Prop where
  | init : Reachable newTree
  | step (t : RBTree) (v : Int) : Reachable t → Reachable (t.insert v).1

/-- Link-field well-formedness: the arena is nonempty, the root is in
range, the sentinel's `parent`, `left` and `right` all refer to the
sentinel itself, the root's parent is the sentinel, every node has a
`some` parent lying in range, all child links lie in range, and every
node other than the sentinel and the root has a parent other than the
sentinel. -/
def LinksWF (t : RBTree) : Prop :=
  0 < t.nodes.length ∧
  t.root < t.nodes.length ∧
  (t.node 0).parent = some 0 ∧
  (t.node 0).left = 0 ∧
  (t.node 0).right = 0 ∧
  (t.node t.root).parent = some 0 ∧
  (∀ i, i < t.nodes.length →
    ∃ p, (t.node i).parent = some p ∧ p < t.nodes.length) ∧
  (∀ i, i < t.nodes.length →
    (t.node i).left < t.nodes.length ∧ (t.node i).right < t.nodes.length) ∧
  (∀ i, i < t.nodes.length → i ≠ 0 → i ≠ t.root →
    ∀ p, (t.node i).parent = some p → p ≠ 0)

theorem linksWF_of_sameTopo {t u : RBTree} (hs : SameTopo t u)
    (h : LinksWF t) : LinksWF u := by
  obtain ⟨hr, hl, hf⟩ := hs
  obtain ⟨h1, h2, h3, h4, h5, h6, h7, h8, h9⟩ := h
  refine ⟨by omega, by rw [hr, hl]; exact h2, by rw [(hf 0).1]; exact h3,
    by rw [(hf 0).2.1]; exact h4, by rw [(hf 0).2.2.1]; exact h5,
    by rw [hr, (hf t.root).1]; exact h6, ?_, ?_, ?_⟩
  · intro i hi
    rw [hl] at hi
    obtain ⟨p, hp, hplt⟩ := h7 i hi
    exact ⟨p, by rw [(hf i).1]; exact hp, by omega⟩
  · intro i hi
    rw [hl] at hi
    obtain ⟨ha, hb⟩ := h8 i hi
    exact ⟨by rw [(hf i).2.1]; omega, by rw [(hf i).2.2.1]; omega⟩
  · intro i hi hi0 hir p hp
    rw [hl] at hi
    rw [hr] at hir
    rw [(hf i).1] at hp
    exact h9 i hi hi0 hir p hp

theorem newTree_linksWF : LinksWF newTree := by
  refine ⟨by decide, by decide, rfl, rfl, rfl, rfl, ?_, ?_, ?_⟩
  · intro i hi
    have hi0 : i = 0 := by
      simp [newTree] at hi
      omega
    subst hi0
    exact ⟨0, rfl, by decide⟩
  · intro i hi
    have hi0 : i = 0 := by
      simp [newTree] at hi
      omega
    subst hi0
    exact ⟨by decide, by decide⟩
  · intro i hi hi0 _ p _
    have : i = 0 := by
      simp [newTree] at hi
      omega
    exact absurd this hi0

/-- When the descent loop starts from a nonzero prospective parent, the
attachment parent it returns is nonzero. -/
theorem search_attach_ne_zero (t : RBTree) (v : Int) :
    ∀ (fuel parent cur q : Nat), parent ≠ 0 →
      t.insert_search v parent cur fuel = SearchOutcome.attach q →
      q ≠ 0 := by
  intro fuel
  induction fuel with
  | zero => intro parent cur q _ h; simp [RBTree.insert_search] at h
  | succ fuel ih =>
    intro parent cur q hpar h
    rw [RBTree.insert_search] at h
    split at h
    · cases h; exact hpar
    · rename_i hcur
      split at h
      · cases h
      · split at h
        · exact ih cur _ q hcur h
        · split at h
          · exact ih cur _ q hcur h
          · cases h

/-- The top-level descent returns attachment parent `0` only when the
tree was empty (`root = 0`). -/
theorem search_attach_zero (t : RBTree) (v : Int)
    (h : t.insert_search v 0 t.root (t.nodes.length + 1)
      = SearchOutcome.attach 0) : t.root = 0 := by
  by_contra hroot
  rw [RBTree.insert_search] at h
  rw [if_neg hroot] at h
  rcases hw : (t.node t.root).value with _ | w
  · rw [hw] at h; cases h
  · rw [hw] at h
    dsimp only at h
    split at h
    · exact search_attach_ne_zero t v _ _ _ _ hroot h rfl
    · split at h
      · exact search_attach_ne_zero t v _ _ _ _ hroot h rfl
      · cases h

/-- Attaching the first node to an empty tree preserves the link
invariants. -/
theorem attach_root_linksWF (t t1 : RBTree) (v : Int)
    (ht1 : t1 = RBTree.mk
      (t.nodes ++ [RBNode.mk (some v) Color.RED (some 0) 0 0])
      t.nodes.length)
    (hwf : LinksWF t) (hroot : t.root = 0) :
    LinksWF t1 := by
  obtain ⟨h1, h2, h3, h4, h5, h6, h7, h8, h9⟩ := hwf
  have hn0 : t1.node 0 = t.node 0 := by
    rw [ht1]; exact node_append_lt t _ _ h1
  have hnn : t1.node t.nodes.length
      = RBNode.mk (some v) Color.RED (some 0) 0 0 := by
    rw [ht1]; exact node_append_self t _ _
  have hlen : t1.nodes.length = t.nodes.length + 1 := by
    rw [ht1]; simp
  have hrt : t1.root = t.nodes.length := by rw [ht1]
  refine ⟨by omega, by omega, by rw [hn0]; exact h3, by rw [hn0]; exact h4,
    by rw [hn0]; exact h5, by rw [hrt, hnn], ?_, ?_, ?_⟩
  · intro i hi
    rw [hlen] at hi
    by_cases hilt : i < t.nodes.length
    · obtain ⟨p, hp, hplt⟩ := h7 i hilt
      refine ⟨p, ?_, by omega⟩
      rw [ht1, node_append_lt t _ _ hilt]
      exact hp
    · have hieq : i = t.nodes.length := by omega
      subst hieq
      exact ⟨0, by rw [hnn], by omega⟩
  · intro i hi
    rw [hlen] at hi
    by_cases hilt : i < t.nodes.length
    · obtain ⟨ha, hb⟩ := h8 i hilt
      have hni : t1.node i = t.node i := by
        rw [ht1]; exact node_append_lt t _ _ hilt
      rw [hni]
      omega
    · have hieq : i = t.nodes.length := by omega
      subst hieq
      rw [hnn]
      dsimp only
      omega
  · intro i hi hi0 hir p hp
    rw [hlen] at hi
    rw [hrt] at hir
    have hilt : i < t.nodes.length := by omega
    rw [ht1, node_append_lt t _ _ hilt] at hp
    exact h9 i hilt hi0 (hroot ▸ hi0) p hp

/-- Attaching a new node as a child of the real node `q` (rewiring one of
the two child links of `q` to the new index) preserves the link
invariants. -/
theorem attach_child_linksWF (t t1 : RBTree) (q : Nat) (v : Int)
    (x : RBNode)
    (ht1 : t1 = RBTree.mk
      (t.nodes ++ [RBNode.mk (some v) Color.RED (some q) 0 0]) t.root)
    (hwf : LinksWF t) (hqne : q ≠ 0) (hqlt : q < t.nodes.length)
    (hxp : x.parent = (t.node q).parent)
    (hxlr : (x.left = t.nodes.length ∧ x.right = (t.node q).right) ∨
            (x.left = (t.node q).left ∧ x.right = t.nodes.length)) :
    LinksWF (t1.setNode q x) := by
  obtain ⟨h1, h2, h3, h4, h5, h6, h7, h8, h9⟩ := hwf
  have hlen1 : t1.nodes.length = t.nodes.length + 1 := by
    rw [ht1]; simp
  have hnlt : ∀ i, i < t.nodes.length → t1.node i = t.node i := by
    intro i hilt
    rw [ht1]; exact node_append_lt t _ _ hilt
  have hnn : t1.node t.nodes.length
      = RBNode.mk (some v) Color.RED (some q) 0 0 := by
    rw [ht1]; exact node_append_self t _ _
  have hnode : ∀ i, (t1.setNode q x).node i
      = if q = i then x else t1.node i := by
    intro i
    rw [node_setNode]
    by_cases hqi : q = i
    · rw [if_pos ⟨hqi, by omega⟩, if_pos hqi]
    · rw [if_neg (fun hc => hqi hc.1), if_neg hqi]
  have hlen2 : (t1.setNode q x).nodes.length = t.nodes.length + 1 := by
    rw [length_setNode, hlen1]
  have hroot2 : (t1.setNode q x).root = t.root := by
    rw [root_setNode, ht1]
  refine ⟨by omega, by omega, ?_, ?_, ?_, ?_, ?_, ?_, ?_⟩
  · rw [hnode 0, if_neg hqne, hnlt 0 h1]
    exact h3
  · rw [hnode 0, if_neg hqne, hnlt 0 h1]
    exact h4
  · rw [hnode 0, if_neg hqne, hnlt 0 h1]
    exact h5
  · rw [hroot2, hnode t.root]
    by_cases hqr : q = t.root
    · rw [if_pos hqr, hxp, hqr]
      exact h6
    · rw [if_neg hqr, hnlt t.root h2]
      exact h6
  · intro i hi
    rw [hlen2] at hi
    rw [hnode i]
    by_cases hqi : q = i
    · rw [if_pos hqi, hxp]
      obtain ⟨p, hp, hplt⟩ := h7 q hqlt
      exact ⟨p, hqi ▸ hp, by omega⟩
    · rw [if_neg hqi]
      by_cases hilt : i < t.nodes.length
      · obtain ⟨p, hp, hplt⟩ := h7 i hilt
        exact ⟨p, by rw [hnlt i hilt]; exact hp, by omega⟩
      · have hieq : i = t.nodes.length := by omega
        subst hieq
        exact ⟨q, by rw [hnn], by omega⟩
  · intro i hi
    rw [hlen2] at hi
    rw [hnode i, hlen2]
    by_cases hqi : q = i
    · rw [if_pos hqi]
      obtain ⟨ha, hb⟩ := h8 q hqlt
      rcases hxlr with ⟨hx1, hx2⟩ | ⟨hx1, hx2⟩ <;> rw [hx1, hx2] <;> omega
    · rw [if_neg hqi]
      by_cases hilt : i < t.nodes.length
      · obtain ⟨ha, hb⟩ := h8 i hilt
        rw [hnlt i hilt]
        omega
      · have hieq : i = t.nodes.length := by omega
        subst hieq
        rw [hnn]
        dsimp only
        omega
  · intro i hi hi0 hir p hp
    rw [hlen2] at hi
    rw [hroot2] at hir
    rw [hnode i] at hp
    by_cases hqi : q = i
    · rw [if_pos hqi, hxp] at hp
      exact h9 q hqlt hqne (hqi ▸ hir) p (hqi ▸ hp)
    · rw [if_neg hqi] at hp
      by_cases hilt : i < t.nodes.length
      · rw [hnlt i hilt] at hp
        exact h9 i hilt hi0 hir p hp
      · have hieq : i = t.nodes.length := by omega
        subst hieq
        rw [hnn] at hp
        injection hp with hp
        subst hp
        exact hqne

/-- One `insert` call, whether it completes, no-ops or raises, preserves
the link invariants: the descent writes nothing, the attachment rewires
exactly one child link of a real node, and the fixup writes only colour
fields. -/
theorem insert_linksWF (t : RBTree) (v : Int) (h : LinksWF t) :
    LinksWF (t.insert v).1 := by
  rw [RBTree.insert]
  cases hres : t.insert_search v 0 t.root (t.nodes.length + 1) with
  | noFuel => exact h
  | typeErr => exact h
  | dup => exact h
  | attach q =>
    dsimp only
    by_cases hq0 : q = 0
    · subst hq0
      rw [if_pos rfl]
      have hroot := search_attach_zero t v hres
      exact linksWF_of_sameTopo (insert_fixup_sameTopo _ _ _)
        (attach_root_linksWF t _ v rfl h hroot)
    · rw [if_neg hq0]
      have hqr := search_attach_range t v _ _ _ _ hres
      have hql : q < t.nodes.length := by
        rcases hqr with rfl | hq
        · exact absurd rfl hq0
        · exact hq.2
      cases hw : (t.node q).value with
      | none => exact h
      | some w =>
        dsimp only
        by_cases hvw : v < w
        · rw [if_pos hvw]
          refine linksWF_of_sameTopo (insert_fixup_sameTopo _ _ _)
            (attach_child_linksWF t _ q v _ rfl h hq0 hql ?_ (Or.inl ⟨rfl, ?_⟩))
          · show ((RBTree.mk (t.nodes ++ [RBNode.mk (some v) Color.RED
              (some q) 0 0]) t.root).node q).parent = (t.node q).parent
            exact congrArg RBNode.parent (node_append_lt t _ _ hql)
          · show ((RBTree.mk (t.nodes ++ [RBNode.mk (some v) Color.RED
              (some q) 0 0]) t.root).node q).right = (t.node q).right
            exact congrArg RBNode.right (node_append_lt t _ _ hql)
        · rw [if_neg hvw]
          refine linksWF_of_sameTopo (insert_fixup_sameTopo _ _ _)
            (attach_child_linksWF t _ q v _ rfl h hq0 hql ?_ (Or.inr ⟨?_, rfl⟩))
          · show ((RBTree.mk (t.nodes ++ [RBNode.mk (some v) Color.RED
              (some q) 0 0]) t.root).node q).parent = (t.node q).parent
            exact congrArg RBNode.parent (node_append_lt t _ _ hql)
          · show ((RBTree.mk (t.nodes ++ [RBNode.mk (some v) Color.RED
              (some q) 0 0]) t.root).node q).left = (t.node q).left
            exact congrArg RBNode.left (node_append_lt t _ _ hql)

/-- C10: in every state reachable by `new_tree` followed by any sequence
of `insert` calls, no node's `parent` field is `None`; the sentinel's
`parent`, `left` and `right` all refer to the sentinel itself; the root's
parent is the sentinel; and every node other than the sentinel and the
root has a real, in-range, non-sentinel parent node.  Consequently the
`parent is None` root test used by the rotation helpers is never
satisfied by a node of a reachable tree. -/
theorem reachable_parent_fields (t : RBTree) (h : Reachable t) :
    (∀ i, i < t.nodes.length → (t.node i).parent ≠ none) ∧
    (t.node 0).parent = some 0 ∧
    (t.node 0).left = 0 ∧
    (t.node 0).right = 0 ∧
    (t.node t.root).parent = some 0 ∧
    (∀ i, i < t.nodes.length → i ≠ 0 → i ≠ t.root →
      ∀ p, (t.node i).parent = some p →
        p ≠ 0 ∧ p < t.nodes.length) := by
  have hwf : LinksWF t := by
    induction h with
    | init => exact newTree_linksWF
    | step t v _ ih => exact insert_linksWF t v ih
  obtain ⟨h1, h2, h3, h4, h5, h6, h7, h8, h9⟩ := hwf
  refine ⟨?_, h3, h4, h5, h6, ?_⟩
  · intro i hi
    obtain ⟨p, hp, _⟩ := h7 i hi
    rw [hp]
    simp
  · intro i hi hi0 hir p hp
    refine ⟨h9 i hi hi0 hir p hp, ?_⟩
    obtain ⟨p2, hp2, hplt⟩ := h7 i hi
    rw [hp] at hp2
    injection hp2 with hp2
    omega

/-- Witness for C10 at a concrete reachable state (one insert into a
fresh tree). -/
theorem reachable_parent_fields_witness :
    ((newTree.insert 5).1.node 0).parent = some 0 ∧
    ((newTree.insert 5).1.node (newTree.insert 5).1.root).parent
      = some 0 :=
  ⟨(reachable_parent_fields (newTree.insert 5).1
      (Reachable.step newTree 5 Reachable.init)).2.1,
   (reachable_parent_fields (newTree.insert 5).1
      (Reachable.step newTree 5 Reachable.init)).2.2.2.2.1⟩
